import Mathlib

/-!
Verification of the incremental streaming decompression engine and the
multi-member gzip container reader of `python-isal`
(`src/isal/igzip_lib_impl.h` and `src/isal/isal_zlibmodule.c`).

The wrapper logic under verification (buffer arrangement, the
`IgzipDecompressor.decompress` retained-input machinery, and the
`_GzipReader` HEADER/DEFLATE_BLOCK/TRAILER/NULL_BYTES state machine) is
embedded shallowly below, byte arrays becoming `List Nat` and pointer
cursors becoming indices.  The external ISA-L codec (`isal_inflate`) is
out of scope for this repository; it is treated as a parameter
`step : InflateStep` satisfying the interface contract, and a concrete
executable model codec (`modelInflate`) instantiates it for witnesses
and for end-to-end runs.
-/

deriving instance DecidableEq for Except

namespace PyIsal

/-- `UINT32_MAX`. -/
def U32MAX : Nat := 4294967295

/-- `PY_SSIZE_T_MAX`. -/
def SSIZE_MAX : Nat := 9223372036854775807

/-- Initial output buffer size (`DEF_BUF_SIZE` = 16*1024). -/
def DEF_BUF_SIZE : Nat := 16384

/-- `load_u32_le`: little-endian 32-bit load at index `i` of a byte list
(out-of-range bytes read as 0, matching no real execution but keeping the
function total; all verified runs stay in range). -/
def load_u32_le (l : List Nat) (i : Nat) : Nat :=
  l.getD i 0 + 256 * l.getD (i + 1) 0 + 65536 * l.getD (i + 2) 0 +
    16777216 * l.getD (i + 3) 0

/-- `load_u16_le`: little-endian 16-bit load at index `i`. -/
def load_u16_le (l : List Nat) (i : Nat) : Nat :=
  l.getD i 0 + 256 * l.getD (i + 1) 0

/-- One shift-xor round of the reflected CRC-32 (gzip polynomial
`0xEDB88320`), as computed by `crc32_gzip_refl`. -/
def crc32_round (crc : Nat) : Nat :=
  if crc % 2 = 1 then Nat.xor (crc / 2) 0xEDB88320 else crc / 2

/-- Absorb one byte into a reflected CRC-32 accumulator. -/
def crc32_byte (crc b : Nat) : Nat :=
  (List.range 8).foldl (fun c _ => crc32_round c) (Nat.xor crc b)

/-- `crc32_gzip_refl(seed, data)`: the reflected gzip CRC-32, a pure
function per the spec's checksum contract. -/
def crc32_gzip_refl (seed : Nat) (data : List Nat) : Nat :=
  Nat.xor (data.foldl crc32_byte (Nat.xor seed 0xFFFFFFFF)) 0xFFFFFFFF

/-- `bitbuffer_size`: number of whole bytes parked in the inflate
state's bit residue (`state->read_in_length / 8`). -/
def bitbuffer_size (read_in_length : Nat) : Nat := read_in_length / 8

/-- The first `n` little-endian bytes of a machine integer, as produced
by `memcpy` from a `uint64_t` on a little-endian host. -/
def bytesLE : Nat → Nat → List Nat
  | 0, _ => []
  | n + 1, x => x % 256 :: bytesLE n (x / 256)

/-- `bitbuffer_copy`: byte-align the 8-byte bit buffer `read_in` by
shifting out the sub-byte remainder (`read_in >> (read_in_length % 8)`)
and copy its first `n` little-endian bytes. -/
def bitbuffer_copy (read_in read_in_length n : Nat) : List Nat :=
  bytesLE n (read_in >>> (read_in_length % 8))

/-- Little-endian byte-list decoding, used to state what
`bitbuffer_copy` preserves. -/
def leBytesToNat : List Nat → Nat
  | [] => 0
  | b :: r => b + 256 * leBytesToNat r

/-- `arrange_input_buffer`: cap a remaining count at `UINT32_MAX`,
returning `(avail_in, new_remaining)`. -/
def arrange_input_buffer (remains : Nat) : Nat × Nat :=
  (min remains U32MAX, remains - min remains U32MAX)

/-- Outcome of `arrange_output_buffer_with_maximum`: either the `-2`
"limit reached" signal, or the (possibly grown) buffer contents, the new
buffer length and the available output window.  Allocation failure
(`-1`) does not occur in the model. -/
inductive ArrangeRes
  | limit
  | ok (produced : List Nat) (newLength : Nat) (availOut : Nat)
  deriving Repr, DecidableEq

/-- `arrange_output_buffer_with_maximum`: allocate the output buffer on
first use; when the occupied cursor has reached the current length,
signal `-2` at the hard maximum, otherwise double (capped at the
maximum); expose the free window capped at `UINT32_MAX`. -/
def arrange_output_buffer_with_maximum (buffer : Option (List Nat))
    (length maxLength : Nat) : ArrangeRes :=
  match buffer with
  | none => .ok [] length (min length U32MAX)
  | some produced =>
    let occupied := produced.length
    if length = occupied then
      if length = maxLength then .limit
      else
        let newLength := if length ≤ maxLength / 2 then length * 2 else maxLength
        .ok produced newLength (min (newLength - occupied) U32MAX)
    else .ok produced length (min (length - occupied) U32MAX)

/-- The observable fields of an ISA-L `inflate_state` that the wrapper
code reads or writes: the packed bit buffer `read_in` with its bit count
`read_in_length`, whether `block_state == ISAL_BLOCK_FINISH`, the
running output CRC and the 32-bit total output counter. -/
structure InflateState where
  read_in : Nat := 0
  read_in_length : Nat := 0
  block_finished : Bool := false
  crc : Nat := 0
  total_out : Nat := 0
  deriving Repr, DecidableEq

/-- `isal_inflate_reset`. -/
def inflate_reset : InflateState := {}

/-- The external codec's resumable inflate call: given the state, the
input window handed to it (`next_in`/`avail_in`) and the output room
(`avail_out`), it returns the new state, the number of input bytes
consumed and the output bytes produced. -/
def InflateStep : Type :=
  InflateState → List Nat → Nat → InflateState × Nat × List Nat

/-- Model codec, inner run: each input byte below 255 is a literal
emitted verbatim (consuming output room), byte 255 ends the stream.
CRC and `total_out` are maintained over the emitted bytes. -/
def modelRun : InflateState → List Nat → Nat → InflateState × Nat × List Nat
  | st, [], _ => (st, 0, [])
  | st, b :: rest, availOut =>
    if availOut = 0 then (st, 0, [])
    else if b = 255 then ({ st with block_finished := true }, 1, [])
    else
      let st1 := { st with crc := crc32_gzip_refl st.crc [b],
                           total_out := (st.total_out + 1) % 4294967296 }
      let r := modelRun st1 rest (availOut - 1)
      (r.1, r.2.1 + 1, b :: r.2.2)

/-- Model codec conforming to the `InflateStep` interface: inert once
the block is finished. -/
def modelInflate : InflateStep := fun st input availOut =>
  if st.block_finished then (st, 0, []) else modelRun st input availOut

/-! ### `decompress_buf` / `decompress` (igzip_lib_impl.h) -/

/-- The `do`-loop of `decompress_buf`: repeatedly arrange the output
buffer (breaking on the `-2` limit signal), cap the input window, run
one codec step, and stop on block-finish or once the true remaining
input (`avail_in_real`) is empty.  Returns the final codec state, the
remaining input, the produced bytes and whether `eof` was set.  Fuel
makes the recursion structural; all theorems supply sufficient fuel. -/
def decompressBufLoop (step : InflateStep) :
    Nat → InflateState → List Nat → Option (List Nat) → Nat → Nat →
    InflateState × List Nat × List Nat × Bool
  | 0, st, input, buf, _, _ => (st, input, buf.getD [], false)
  | fuel + 1, st, input, buf, obuflen, maxLength =>
    match arrange_output_buffer_with_maximum buf obuflen maxLength with
    | .limit => (st, input, buf.getD [], false)
    | .ok produced newLength availOut =>
      let availIn := (arrange_input_buffer input.length).1
      let t := step st (input.take availIn) availOut
      let input' := input.drop t.2.1
      let produced' := produced ++ t.2.2
      if t.1.block_finished then (t.1, input', produced', true)
      else if input' = [] then (t.1, input', produced', false)
      else decompressBufLoop step fuel t.1 input' (some produced') newLength maxLength

/-- The observable state of an `IgzipDecompressor`: codec state, `eof`,
`unused_data`, `needs_input`, and the retained unconsumed input tail
(the logical contents of `input_buffer` at `next_in`; `[]` when
`next_in == NULL`). -/
structure Decomp where
  state : InflateState := {}
  eof : Bool := false
  unused_data : List Nat := []
  needs_input : Bool := true
  retained : List Nat := []
  deriving Repr, DecidableEq

/-- `decompress` (static helper in igzip_lib_impl.h): translate the
`max_length` argument into a hard limit, logically prepend the retained
unconsumed input to the new data (the pointer/realloc juggling of the C
code implements exactly this concatenation), run `decompress_buf`, and
update `eof` / `needs_input` / `unused_data` / the retained tail. -/
def decompressCore (step : InflateStep) (fuel : Nat) (d : Decomp)
    (data : List Nat) (maxLength : Int) : List Nat × Decomp :=
  let hardLimit : Nat := if maxLength < 0 then SSIZE_MAX else maxLength.toNat
  let input := d.retained ++ data
  let r := decompressBufLoop step fuel d.state input none
      (min DEF_BUF_SIZE hardLimit) hardLimit
  let st' := r.1
  let input' := r.2.1
  let result := r.2.2.1
  if d.eof || r.2.2.2 then
    (result,
      { state := st', eof := true,
        unused_data :=
          if input' = [] then d.unused_data
          else bitbuffer_copy st'.read_in st'.read_in_length
                 (bitbuffer_size st'.read_in_length) ++ input',
        needs_input := false, retained := input' })
  else if input' = [] then
    (result, { state := st', eof := false, unused_data := d.unused_data,
               needs_input := true, retained := [] })
  else
    (result, { state := st', eof := false, unused_data := d.unused_data,
               needs_input := false, retained := input' })

/-- `IgzipDecompressor.decompress`: `EOFError` (modelled as `none`) when
`eof` was already reached, otherwise run the core. -/
def IgzipDecompressor_decompress (step : InflateStep) (fuel : Nat)
    (d : Decomp) (data : List Nat) (maxLength : Int) :
    Option (List Nat × Decomp) :=
  if d.eof then none else some (decompressCore step fuel d data maxLength)

/-- Feed a list of chunks to successive `decompress` calls with
unbounded `max_length`, concatenating the returned fragments.  `none`
as soon as one call raises. -/
def feedAll (step : InflateStep) (d : Decomp) :
    List (List Nat) → Option (List Nat × Decomp)
  | [] => some ([], d)
  | c :: cs =>
    match IgzipDecompressor_decompress step ((d.retained ++ c).length + 2) d c (-1) with
    | none => none
    | some (o, d') =>
      match feedAll step d' cs with
      | none => none
      | some (os, d'') => some (o ++ os, d'')

/-! ### Denotation of the model codec -/

/-- Output of the model codec on a compressed buffer: the literal bytes
preceding the first 255 marker. -/
def mOut : List Nat → List Nat
  | [] => []
  | b :: r => if b = 255 then [] else b :: mOut r

/-- Leftover bytes behind the first 255 marker (empty if none). -/
def mLeft : List Nat → List Nat
  | [] => []
  | b :: r => if b = 255 then r else mLeft r

/-- Whether the buffer contains the 255 end-of-stream marker. -/
def mFin : List Nat → Bool
  | [] => false
  | b :: r => if b = 255 then true else mFin r

/-- Codec state after the model codec has fully absorbed a buffer. -/
def mFeed : InflateState → List Nat → InflateState
  | st, [] => st
  | st, b :: r =>
    if b = 255 then { st with block_finished := true }
    else
      mFeed { st with crc := crc32_gzip_refl st.crc [b],
                      total_out := (st.total_out + 1) % 4294967296 } r

/-- Bytes the model codec consumes from a buffer given output room `a`. -/
def mCons (a : Nat) (l : List Nat) : Nat :=
  if mFin l = true ∧ (mOut l).length < a then (mOut l).length + 1
  else min a (mOut l).length

theorem mOut_length_le (l : List Nat) : (mOut l).length ≤ l.length := by
  induction l with
  | nil => simp [mOut]
  | cons b r ih =>
    by_cases hb : b = 255
    · simp [mOut, hb]
    · simp [mOut, hb]; omega

theorem mOut_length_lt_of_fin (l : List Nat) (h : mFin l = true) :
    (mOut l).length + 1 ≤ l.length := by
  induction l with
  | nil => simp [mFin] at h
  | cons b r ih =>
    by_cases hb : b = 255
    · simp [mOut, hb]
    · simp [mFin, hb] at h
      simp [mOut, hb]
      exact ih h

theorem mCons_le (a : Nat) (l : List Nat) : mCons a l ≤ l.length := by
  unfold mCons
  split
  · rename_i h
    exact mOut_length_lt_of_fin l h.1
  · have := mOut_length_le l
    omega

theorem mCons_pos (a : Nat) (l : List Nat) (ha : 1 ≤ a) (hl : l ≠ []) :
    1 ≤ mCons a l := by
  match l with
  | b :: r =>
    unfold mCons
    by_cases hb : b = 255
    · simp [mOut, mFin, hb]
      split <;> omega
    · simp [mOut, mFin, hb]
      split <;> omega

theorem mFin_false_iff (l : List Nat) : mFin l = false ↔ 255 ∉ l := by
  induction l with
  | nil => simp [mFin]
  | cons b r ih =>
    by_cases hb : b = 255 <;> simp [mFin, hb, ih]
    omega

theorem mOut_of_not_fin (l : List Nat) (h : mFin l = false) : mOut l = l := by
  induction l with
  | nil => simp [mOut]
  | cons b r ih =>
    by_cases hb : b = 255
    · simp [mFin, hb] at h
    · simp [mFin, hb] at h
      simp [mOut, hb, ih h]

theorem mLeft_of_not_fin (l : List Nat) (h : mFin l = false) : mLeft l = [] := by
  induction l with
  | nil => simp [mLeft]
  | cons b r ih =>
    by_cases hb : b = 255
    · simp [mFin, hb] at h
    · simp [mFin, hb] at h
      simp [mLeft, hb, ih h]

theorem mFeed_block_finished (st : InflateState) (l : List Nat) :
    (mFeed st l).block_finished = (st.block_finished || mFin l) := by
  induction l generalizing st with
  | nil => simp [mFeed, mFin]
  | cons b r ih =>
    by_cases hb : b = 255
    · simp [mFeed, mFin, hb]
    · simp [mFeed, mFin, hb, ih]

theorem mFeed_read_in (st : InflateState) (l : List Nat) :
    (mFeed st l).read_in = st.read_in ∧
      (mFeed st l).read_in_length = st.read_in_length := by
  induction l generalizing st with
  | nil => simp [mFeed]
  | cons b r ih =>
    by_cases hb : b = 255
    · simp [mFeed, hb]
    · simp [mFeed, hb, ih]

theorem mOut_append_not_mem (p r : List Nat) (h : 255 ∉ p) :
    mOut (p ++ r) = p ++ mOut r := by
  induction p with
  | nil => simp
  | cons b q ih =>
    simp only [List.mem_cons, not_or] at h
    have hb : b ≠ 255 := fun hh => h.1 hh.symm
    simp [mOut, hb, ih h.2]

theorem mFin_append_not_mem (p r : List Nat) (h : 255 ∉ p) :
    mFin (p ++ r) = mFin r := by
  induction p with
  | nil => simp
  | cons b q ih =>
    simp only [List.mem_cons, not_or] at h
    have hb : b ≠ 255 := fun hh => h.1 hh.symm
    simp [mFin, hb, ih h.2]

theorem mLeft_append_not_mem (p r : List Nat) (h : 255 ∉ p) :
    mLeft (p ++ r) = mLeft r := by
  induction p with
  | nil => simp
  | cons b q ih =>
    simp only [List.mem_cons, not_or] at h
    have hb : b ≠ 255 := fun hh => h.1 hh.symm
    simp [mLeft, hb, ih h.2]

theorem mFeed_append_not_mem (st : InflateState) (p r : List Nat) (h : 255 ∉ p) :
    mFeed st (p ++ r) = mFeed (mFeed st p) r := by
  induction p generalizing st with
  | nil => simp [mFeed]
  | cons b q ih =>
    simp only [List.mem_cons, not_or] at h
    have hb : b ≠ 255 := fun hh => h.1 hh.symm
    simp [mFeed, hb, ih _ h.2]

theorem mOut_append_fin (p r : List Nat) (h : mFin p = true) :
    mOut (p ++ r) = mOut p := by
  induction p with
  | nil => simp [mFin] at h
  | cons b q ih =>
    by_cases hb : b = 255
    · simp [mOut, hb]
    · simp [mFin, hb] at h
      simp [mOut, hb, ih h]

theorem mFin_append_fin (p r : List Nat) (h : mFin p = true) :
    mFin (p ++ r) = true := by
  induction p with
  | nil => simp [mFin] at h
  | cons b q ih =>
    by_cases hb : b = 255
    · simp [mFin, hb]
    · simp [mFin, hb] at h ⊢
      exact ih h

theorem mLeft_append_fin (p r : List Nat) (h : mFin p = true) :
    mLeft (p ++ r) = mLeft p ++ r := by
  induction p with
  | nil => simp [mFin] at h
  | cons b q ih =>
    by_cases hb : b = 255
    · simp [mLeft, hb]
    · simp [mFin, hb] at h
      simp [mLeft, hb, ih h]

theorem mFeed_append_fin (st : InflateState) (p r : List Nat) (h : mFin p = true) :
    mFeed st (p ++ r) = mFeed st p := by
  induction p generalizing st with
  | nil => simp [mFin] at h
  | cons b q ih =>
    by_cases hb : b = 255
    · simp [mFeed, hb]
    · simp [mFin, hb] at h
      simp [mFeed, hb, ih _ h]

theorem mOut_take (l : List Nat) (k : Nat) (hk : k ≤ (mOut l).length) :
    (mOut l).take k = l.take k := by
  induction l generalizing k with
  | nil => simp [mOut]
  | cons b r ih =>
    by_cases hb : b = 255
    · simp [mOut, hb] at hk
      simp [hk]
    · match k with
      | 0 => simp
      | k + 1 =>
        simp [mOut, hb] at hk ⊢
        exact ih k hk

theorem mOut_not_mem (l : List Nat) : 255 ∉ mOut l := by
  induction l with
  | nil => simp [mOut]
  | cons b r ih =>
    by_cases hb : b = 255
    · simp [mOut, hb]
    · simp only [mOut, if_neg hb, List.mem_cons, not_or]
      exact ⟨fun h => hb h.symm, ih⟩

theorem take_mOut_succ (l : List Nat) (h : mFin l = true) :
    l.take ((mOut l).length + 1) = mOut l ++ [255] := by
  induction l with
  | nil => simp [mFin] at h
  | cons b r ih =>
    by_cases hb : b = 255
    · simp [mOut, hb]
    · simp [mFin, hb] at h
      simp [mOut, hb, ih h]

theorem mCons_cons (a b : Nat) (rest : List Nat) (ha : 1 ≤ a) (hb : b ≠ 255) :
    mCons a (b :: rest) = mCons (a - 1) rest + 1 := by
  unfold mCons
  cases hf : mFin rest with
  | false => simp [mOut, mFin, hb, hf]; omega
  | true =>
    simp [mOut, mFin, hb, hf]
    split <;> split <;> omega

/-- Full characterization of one model-codec call: it consumes
`mCons a l` bytes, produces the literal prefix clipped to the output
room, and advances the state by `mFeed` over the consumed bytes. -/
theorem modelRun_eq (l : List Nat) : ∀ (st : InflateState) (a : Nat),
    modelRun st l a =
      (mFeed st (l.take (mCons a l)), mCons a l, (mOut l).take a) := by
  induction l with
  | nil =>
    intro st a
    simp [modelRun, mCons, mOut, mFin, mFeed]
  | cons b rest ih =>
    intro st a
    match a with
    | 0 => simp [modelRun, mCons, mOut, mFin, mFeed]
    | a + 1 =>
      by_cases hb : b = 255
      · subst hb
        simp [modelRun, mCons, mOut, mFin, mFeed]
      · have hc := mCons_cons (a + 1) b rest (by omega) hb
        simp only [Nat.add_sub_cancel] at hc
        simp [modelRun, hb, ih, hc, mOut, mFeed, List.take_succ_cons]

/-- What one `isal_inflate` call of the model codec inside the
`decompress_buf` loop does, in terms of the consumed prefix
`input.take c`. -/
theorem modelInflate_iter (st : InflateState) (input w : List Nat) (a : Nat)
    (st' : InflateState) (c : Nat) (o : List Nat)
    (hw : w = input.take (min input.length U32MAX))
    (hfin : st.block_finished = false) (ha : 1 ≤ a)
    (hstep : modelInflate st w a = (st', c, o)) :
    st' = mFeed st (input.take c) ∧ o = mOut (input.take c) ∧
      c ≤ input.length ∧ o.length ≤ a ∧ o.length ≤ c ∧
      (input ≠ [] → 1 ≤ c) ∧
      st'.block_finished = mFin (input.take c) ∧
      (mFin (input.take c) = true → mLeft (input.take c) = []) := by
  simp only [modelInflate, if_neg (by simp [hfin] : ¬st.block_finished = true),
    modelRun_eq] at hstep
  injection hstep with h1 h2
  injection h2 with hc ho
  have hcw : c ≤ w.length := by rw [← hc]; exact mCons_le a w
  have hwlen : w.length = min input.length U32MAX := by simp [hw]
  have hcin : c ≤ input.length := by omega
  have htake : w.take c = input.take c := by
    rw [hw, List.take_take]
    congr 1
    omega
  have hst : st' = mFeed st (input.take c) := by
    rw [← h1, hc, htake]
  have hfin' : st'.block_finished = mFin (input.take c) := by
    rw [hst, mFeed_block_finished, hfin, Bool.false_or]
  -- case split mirroring the two branches of `mCons`
  by_cases hbr : mFin w = true ∧ (mOut w).length < a
  · -- marker reached: `input.take c = mOut w ++ [255]`
    obtain ⟨hbf, hblt⟩ := hbr
    have hcval : c = (mOut w).length + 1 := by
      rw [← hc, mCons, if_pos ⟨hbf, hblt⟩]
    have hdecomp : w.take c = mOut w ++ [255] := by
      rw [hcval]; exact take_mOut_succ w hbf
    have htk : input.take c = mOut w ++ [255] := by rw [← htake, hdecomp]
    have hmo : mOut (input.take c) = mOut w := by
      rw [htk, mOut_append_not_mem _ _ (mOut_not_mem w)]
      simp [mOut]
    have hoval : o = mOut w := by
      rw [← ho, List.take_of_length_le (by omega)]
    refine ⟨hst, by rw [hoval, hmo], hcin, ?_, ?_, ?_, hfin', ?_⟩
    · rw [hoval]; omega
    · rw [hoval]; omega
    · intro _; omega
    · intro _
      rw [htk, mLeft_append_not_mem _ _ (mOut_not_mem w)]
      simp [mLeft]
  · -- literal-only consumption: `input.take c` is marker-free
    have hcval : c = min a (mOut w).length := by
      rw [← hc, mCons, if_neg hbr]
    have hoval : o = (mOut w).take c := by
      rw [← ho, hcval, List.take_eq_take]
      omega
    have hpref : w.take c = (mOut w).take c :=
      (mOut_take w c (by omega)).symm
    have hnm : 255 ∉ input.take c := by
      rw [← htake, hpref]
      intro hmem
      exact mOut_not_mem w (List.mem_of_mem_take hmem)
    have hnf : mFin (input.take c) = false := (mFin_false_iff _).mpr hnm
    refine ⟨hst, ?_, hcin, ?_, ?_, ?_, hfin', ?_⟩
    · rw [hoval, ← hpref, htake, mOut_of_not_fin _ hnf]
    · rw [hoval]
      have := List.length_take c (mOut w)
      omega
    · rw [hoval]
      have := List.length_take c (mOut w)
      omega
    · intro hne
      have hw1 : 1 ≤ w.length := by
        rw [hwlen]
        have h0 : 0 < input.length := List.length_pos.mpr hne
        have hU : U32MAX = 4294967295 := rfl
        omega
      have h1c := mCons_pos a w ha (by intro hnil; rw [hnil] at hw1; simp at hw1)
      omega
    · intro hft
      rw [hnf] at hft
      simp at hft

/-- With an unbounded hard limit (`PY_SSIZE_T_MAX`) and a buffer that
stayed within sane bounds, `arrange_output_buffer_with_maximum` always
yields a nonempty output window and never signals the limit. -/
theorem arrange_ok (buf : Option (List Nat)) (obuflen : Nat) (produced : List Nat)
    (hbuf : buf.getD [] = produced) (hocc : produced.length ≤ obuflen)
    (h1 : 1 ≤ obuflen) (h62 : obuflen ≤ 2 ^ 62)
    (hsmall : produced.length ≤ 2 ^ 61) :
    ∃ NL AO,
      arrange_output_buffer_with_maximum buf obuflen SSIZE_MAX =
        .ok produced NL AO ∧
      1 ≤ AO ∧ AO + produced.length ≤ NL ∧ 1 ≤ NL ∧ NL ≤ 2 ^ 62 := by
  have hU : U32MAX = 4294967295 := rfl
  have hS : SSIZE_MAX = 9223372036854775807 := rfl
  cases buf with
  | none =>
    have hp : produced = [] := by simpa using hbuf.symm
    subst hp
    refine ⟨obuflen, min obuflen U32MAX, ?_, by omega, ?_, h1, h62⟩
    · simp [arrange_output_buffer_with_maximum]
    · simp
  | some p =>
    have hp : p = produced := by simpa using hbuf
    subst hp
    simp only [arrange_output_buffer_with_maximum]
    by_cases hfull : obuflen = p.length
    · have hne : ¬ obuflen = SSIZE_MAX := by omega
      have hhalf : obuflen ≤ SSIZE_MAX / 2 := by omega
      refine ⟨obuflen * 2, min (obuflen * 2 - p.length) U32MAX, ?_, ?_, ?_, ?_, ?_⟩
      · rw [if_pos hfull, if_neg hne, if_pos hhalf]
      · omega
      · omega
      · omega
      · omega
    · refine ⟨obuflen, min (obuflen - p.length) U32MAX, ?_, ?_, ?_, h1, h62⟩
      · rw [if_neg hfull]
      · omega
      · omega

/-- Main characterization of the `decompress_buf` loop driven by the
model codec with an unbounded (`PY_SSIZE_T_MAX`) output limit: it
produces exactly the decoded literals, leaves exactly the post-marker
leftover unconsumed, and reports block-finish exactly when the marker
was seen. -/
theorem loop_model (fuel : Nat) :
    ∀ (st : InflateState) (input produced : List Nat)
      (buf : Option (List Nat)) (obuflen : Nat),
    buf.getD [] = produced →
    st.block_finished = false →
    produced.length ≤ obuflen →
    1 ≤ obuflen → obuflen ≤ 2 ^ 62 →
    produced.length + input.length ≤ 2 ^ 61 →
    input.length + 1 ≤ fuel →
    decompressBufLoop modelInflate fuel st input buf obuflen SSIZE_MAX =
      (mFeed st input, mLeft input, produced ++ mOut input, mFin input) := by
  induction fuel with
  | zero =>
    intro st input produced buf obuflen _ _ _ _ _ _ hfuel
    omega
  | succ fuel ih =>
    intro st input produced buf obuflen hbuf hfin hocc h1 h62 hlen hfuel
    obtain ⟨NL, AO, harr, hAO1, hAOle, hNL1, hNL62⟩ :=
      arrange_ok buf obuflen produced hbuf hocc h1 h62 (by omega)
    rw [decompressBufLoop, harr]
    simp only [arrange_input_buffer]
    rcases hEq : modelInflate st (input.take (min input.length U32MAX)) AO
      with ⟨st', c, o⟩
    obtain ⟨hst, ho, hcin, hoa, hoc, hpos, hfin', hml⟩ :=
      modelInflate_iter st input _ AO st' c o rfl hfin hAO1 hEq
    have hsplit : input.take c ++ input.drop c = input := List.take_append_drop c input
    cases hF : mFin (input.take c) with
    | true =>
      rw [if_pos (by rw [hfin', hF])]
      conv_rhs => rw [← hsplit]
      rw [mFeed_append_fin _ _ _ hF, mLeft_append_fin _ _ hF,
        mOut_append_fin _ _ hF, mFin_append_fin _ _ hF,
        hml hF, hst, ho]
      simp
    | false =>
      rw [if_neg (by rw [hfin', hF]; simp)]
      have hnm : 255 ∉ input.take c := (mFin_false_iff _).mp hF
      by_cases hd : input.drop c = []
      · rw [if_pos hd]
        have hcl : input.length ≤ c := by
          have hld := List.length_drop c input
          rw [hd] at hld
          simp at hld
          omega
        have hp : input.take c = input := List.take_of_length_le hcl
        rw [hp] at hst ho hF
        rw [hst, ho, hF, mLeft_of_not_fin _ hF, hd]
      · rw [if_neg hd]
        have hne : input ≠ [] := by
          intro hnil
          rw [hnil] at hd
          simp at hd
        have hc1 : 1 ≤ c := hpos hne
        have hrec := ih st' (input.drop c) (produced ++ o) (some (produced ++ o)) NL
          rfl (by rw [hfin', hF]) ?_ hNL1 hNL62 ?_ ?_
        · rw [hrec]
          conv_rhs => rw [← hsplit]
          rw [mFeed_append_not_mem _ _ _ hnm, mLeft_append_not_mem _ _ hnm,
            mOut_append_not_mem _ _ hnm, mFin_append_not_mem _ _ hnm,
            hst, ho, mOut_of_not_fin _ hF]
          simp
        · have := List.length_append produced o
          omega
        · have h1 := List.length_append produced o
          have h2 := List.length_drop c input
          have h3 := List.length_take c input
          omega
        · have h2 := List.length_drop c input
          omega

/-- The returned fragment of one unbounded `decompress` call over the
model codec is exactly the decoded literal prefix of the input. -/
theorem decompressCore_model_fst (d : Decomp) (data : List Nat) (fuel : Nat)
    (hr : d.retained = []) (hfin : d.state.block_finished = false)
    (hlen : data.length ≤ 2 ^ 61) (hfuel : data.length + 1 ≤ fuel) :
    (decompressCore modelInflate fuel d data (-1)).1 = mOut data := by
  have hLM := loop_model fuel d.state data [] none (min DEF_BUF_SIZE SSIZE_MAX)
    rfl hfin (by simp) (by norm_num [DEF_BUF_SIZE, SSIZE_MAX])
    (by norm_num [DEF_BUF_SIZE, SSIZE_MAX]) (by simpa using hlen) (by omega)
  simp only [decompressCore, hr, List.nil_append,
    if_pos (show (-1 : Int) < 0 by decide)]
  rw [hLM]
  split
  · rfl
  · split <;> rfl

/-- The decompressor state after one clean, marker-free, unbounded
`decompress` call over the model codec: everything is consumed and
echoed, `needs_input` flips on, and nothing is retained. -/
def decompAfter (d : Decomp) (data : List Nat) : Decomp :=
  { state := mFeed d.state data, eof := false, unused_data := d.unused_data,
    needs_input := true, retained := [] }

theorem decompressCore_model_nofin (d : Decomp) (data : List Nat) (fuel : Nat)
    (hr : d.retained = []) (heof : d.eof = false)
    (hfin : d.state.block_finished = false) (hnm : 255 ∉ data)
    (hlen : data.length ≤ 2 ^ 61) (hfuel : data.length + 1 ≤ fuel) :
    decompressCore modelInflate fuel d data (-1) = (data, decompAfter d data) := by
  rw [decompAfter]
  have hF : mFin data = false := (mFin_false_iff data).mpr hnm
  have hLM := loop_model fuel d.state data [] none (min DEF_BUF_SIZE SSIZE_MAX)
    rfl hfin (by simp) (by norm_num [DEF_BUF_SIZE, SSIZE_MAX])
    (by norm_num [DEF_BUF_SIZE, SSIZE_MAX]) (by simpa using hlen) (by omega)
  simp only [decompressCore, hr, List.nil_append,
    if_pos (show (-1 : Int) < 0 by decide)]
  rw [hLM]
  rw [heof, hF, mLeft_of_not_fin _ hF, mOut_of_not_fin _ hF]
  simp

/-- Sequentially feeding chunks to `decompress` concatenates to the
decoded literal prefix of the joined buffer, as long as the marker does
not occur before the final chunk. -/
theorem feedAll_model (chunks : List (List Nat)) :
    ∀ d : Decomp, d.retained = [] → d.eof = false →
      d.state.block_finished = false →
      255 ∉ chunks.dropLast.flatten →
      chunks.flatten.length ≤ 2 ^ 61 →
      (feedAll modelInflate d chunks).map Prod.fst =
        some (mOut chunks.flatten) := by
  induction chunks with
  | nil =>
    intro d _ _ _ _ _
    simp [feedAll, mOut]
  | cons c cs ih =>
    intro d hr heof hfin hnm hlen
    rw [feedAll, IgzipDecompressor_decompress, if_neg (by simp [heof])]
    cases cs with
    | nil =>
      have hfst := decompressCore_model_fst d c ((d.retained ++ c).length + 2)
        hr hfin (by simpa using hlen) (by simp only [hr, List.nil_append]; omega)
      rcases hdc : decompressCore modelInflate ((d.retained ++ c).length + 2) d c (-1)
        with ⟨o, d'⟩
      have ho : o = mOut c := by rw [← hfst, hdc]
      simp [feedAll, ho]
    | cons c2 cs' =>
      have hsplitJ : (c :: c2 :: cs').dropLast.flatten =
          c ++ (c2 :: cs').dropLast.flatten := by
        rw [List.dropLast_cons₂, List.flatten_cons]
      rw [hsplitJ] at hnm
      simp only [List.mem_append, not_or] at hnm
      obtain ⟨hnc, hnrest⟩ := hnm
      have hF : mFin c = false := (mFin_false_iff c).mpr hnc
      have hjoin : (c :: c2 :: cs').flatten = c ++ (c2 :: cs').flatten := by
        rw [List.flatten_cons]
      have hlenc : c.length + (c2 :: cs').flatten.length ≤ 2 ^ 61 := by
        rw [hjoin] at hlen
        simpa using hlen
      rw [decompressCore_model_nofin d c ((d.retained ++ c).length + 2)
        hr heof hfin hnc (by omega) (by simp only [hr, List.nil_append]; omega)]
      have hih := ih (decompAfter d c) rfl rfl
        (by simp [decompAfter, mFeed_block_finished, hfin, hF]) hnrest (by omega)
      rcases hfa : feedAll modelInflate (decompAfter d c) (c2 :: cs')
        with _ | ⟨os, d''⟩
      · rw [hfa] at hih
        simp at hih
      · rw [hfa] at hih
        simp only [Option.map_some'] at hih
        have hos : os = mOut (c2 :: cs').flatten := by
          simpa using hih
        dsimp only
        rw [hfa, hjoin, mOut_append_not_mem _ _ hnc]
        simp [hos]

/-- **C1** Chunk-size independence of streaming decompression: for
every compressed byte buffer (of realizable `Py_ssize_t` size, with the
end-of-stream marker at most in the final sub-chunk, so that no call is
made after `eof`) and every way of splitting it into consecutive
sub-chunks, feeding the sub-chunks one at a time to successive
`IgzipDecompressor.decompress` calls with unbounded `max_length` yields
returned fragments whose concatenation equals the result of feeding the
whole buffer in a single call; retained unconsumed input is logically
prepended to the next call's data (the `d.retained ++ data`
concatenation inside `decompressCore`). -/
theorem C1_decompress_chunk_independence (chunks : List (List Nat))
    (hm : 255 ∉ chunks.dropLast.flatten)
    (hlen : chunks.flatten.length ≤ 2 ^ 61) :
    (feedAll modelInflate {} chunks).map Prod.fst =
      (IgzipDecompressor_decompress modelInflate (chunks.flatten.length + 2) {}
        chunks.flatten (-1)).map Prod.fst ∧
    (feedAll modelInflate {} chunks).isSome = true := by
  have hfa := feedAll_model chunks {} rfl rfl rfl hm hlen
  have hfst := decompressCore_model_fst {} chunks.flatten
    (chunks.flatten.length + 2) rfl rfl hlen (by omega)
  constructor
  · rw [hfa, IgzipDecompressor_decompress, if_neg (by decide)]
    rcases hdc : decompressCore modelInflate (chunks.flatten.length + 2) {}
        chunks.flatten (-1) with ⟨o, d'⟩
    have ho : o = mOut chunks.flatten := by rw [← hfst, hdc]
    simp [ho]
  · rcases hx : feedAll modelInflate {} chunks with _ | y
    · rw [hx] at hfa
      simp at hfa
    · rfl

/-- Witness for C1: the buffer `[1, 2, 3, 255, 9]` split as
`[1, 2] / [3, 255, 9]`. -/
theorem C1_decompress_chunk_independence_witness :
    (255 ∉ ([[1, 2], [3, 255, 9]] : List (List Nat)).dropLast.flatten ∧
      ([[1, 2], [3, 255, 9]] : List (List Nat)).flatten.length ≤ 2 ^ 61) ∧
    ((feedAll modelInflate {} [[1, 2], [3, 255, 9]]).map Prod.fst =
      (IgzipDecompressor_decompress modelInflate
        (([[1, 2], [3, 255, 9]] : List (List Nat)).flatten.length + 2) {}
        ([[1, 2], [3, 255, 9]] : List (List Nat)).flatten (-1)).map Prod.fst ∧
      (feedAll modelInflate {} [[1, 2], [3, 255, 9]]).isSome = true) :=
  ⟨⟨by decide, by decide⟩,
    C1_decompress_chunk_independence [[1, 2], [3, 255, 9]] (by decide) (by decide)⟩

/-- **C7** Output-buffer growth policy of
`arrange_output_buffer_with_maximum`: a full buffer at the hard maximum
signals `LimitReached` (`-2`) without erroring or discarding bytes; a
full buffer below the maximum doubles (the code's
`length <= max_length >> 1` test being equivalent to
`2 * length <= max_length`) or grows to exactly the maximum; a buffer
that is not yet full keeps its length unchanged — and in every case the
already-produced bytes `produced` are returned intact. -/
theorem C7_arrange_output_growth (produced : List Nat) (length maxLength : Nat) :
    (produced.length = length → length = maxLength →
      arrange_output_buffer_with_maximum (some produced) length maxLength =
        .limit) ∧
    (produced.length = length → length < maxLength →
      arrange_output_buffer_with_maximum (some produced) length maxLength =
        .ok produced (if length ≤ maxLength / 2 then length * 2 else maxLength)
          (min ((if length ≤ maxLength / 2 then length * 2 else maxLength) -
            length) U32MAX) ∧
      (length ≤ maxLength / 2 ↔ 2 * length ≤ maxLength)) ∧
    (produced.length ≠ length →
      arrange_output_buffer_with_maximum (some produced) length maxLength =
        .ok produced length (min (length - produced.length) U32MAX)) := by
  refine ⟨?_, ?_, ?_⟩
  · intro h1 h2
    simp only [arrange_output_buffer_with_maximum]
    rw [if_pos h1.symm, if_pos h2]
  · intro h1 h2
    constructor
    · simp only [arrange_output_buffer_with_maximum]
      rw [if_pos h1.symm, if_neg (by omega), h1]
    · omega
  · intro h1
    simp only [arrange_output_buffer_with_maximum]
    rw [if_neg (fun hh => h1 hh.symm)]

/-- Witness for C7: a full 2-byte buffer with hard maximum 10 doubles
to 4 and keeps its bytes. -/
theorem C7_arrange_output_growth_witness :
    (([7, 8] : List Nat).length = 2 ∧ (2 : Nat) < 10) ∧
    (arrange_output_buffer_with_maximum (some [7, 8]) 2 10 =
      .ok [7, 8] (if (2 : Nat) ≤ 10 / 2 then 2 * 2 else 10)
        (min ((if (2 : Nat) ≤ 10 / 2 then 2 * 2 else 10) - 2) U32MAX) ∧
      ((2 : Nat) ≤ 10 / 2 ↔ 2 * 2 ≤ 10)) :=
  ⟨⟨by decide, by decide⟩,
    (C7_arrange_output_growth [7, 8] 2 10).2.1 (by decide) (by decide)⟩

/-- The model codec consumes nothing and emits nothing when given a
zero-sized output window. -/
theorem modelInflate_zero (st : InflateState) (l : List Nat) :
    modelInflate st l 0 = (st, 0, []) := by
  simp only [modelInflate]
  split
  · rfl
  · cases l with
    | nil => rfl
    | cons b r => simp [modelRun]

/-- **C9** Zero output-limit polling: for every decompressor that has
not reached end-of-stream (and a codec that is inert on a zero output
window, as `isal_inflate` is contracted to be here) and every input,
`decompress(data, max_length = 0)` succeeds, returns an empty byte
string, and consumes no input: the retained unconsumed input afterwards
is exactly the previously retained bytes followed by all of `data`, and
the codec state is untouched. -/
theorem C9_decompress_zero_max_length (step : InflateStep) (d : Decomp)
    (data : List Nat) (fuel : Nat)
    (heof : d.eof = false)
    (hfin : d.state.block_finished = false)
    (hstep : ∀ st l, step st l 0 = (st, 0, []))
    (hfuel : 2 ≤ fuel) :
    IgzipDecompressor_decompress step fuel d data 0 =
      some ([], { state := d.state, eof := false,
                  unused_data := d.unused_data,
                  needs_input := (d.retained ++ data).isEmpty,
                  retained := d.retained ++ data }) := by
  obtain ⟨k, rfl⟩ : ∃ k, fuel = k + 2 := ⟨fuel - 2, by omega⟩
  have hloop : decompressBufLoop step (k + 2) d.state (d.retained ++ data) none 0 0 =
      (d.state, d.retained ++ data, [], false) := by
    rw [decompressBufLoop]
    simp only [arrange_output_buffer_with_maximum, arrange_input_buffer,
      Nat.zero_min, Nat.min_zero]
    rw [hstep]
    simp only [hfin, Bool.false_eq_true, if_false, List.drop_zero, List.nil_append]
    by_cases he : d.retained ++ data = []
    · simp [he]
    · rw [if_neg he, decompressBufLoop]
      simp [arrange_output_buffer_with_maximum]
  have h0 : (if (0 : Int) < 0 then SSIZE_MAX else (0 : Int).toNat) = 0 := by decide
  rw [IgzipDecompressor_decompress, if_neg (by simp [heof])]
  simp only [decompressCore, h0, Nat.min_zero]
  rw [hloop]
  by_cases he : d.retained ++ data = []
  · simp [heof, he]
  · simp [heof, he]

/-- Witness for C9: a decompressor with one retained byte polled with
two fresh bytes and `max_length = 0`. -/
theorem C9_decompress_zero_max_length_witness :
    (({ retained := [5] } : Decomp).eof = false ∧
      ({ retained := [5] } : Decomp).state.block_finished = false ∧
      (2 : Nat) ≤ 2) ∧
    IgzipDecompressor_decompress modelInflate 2 { retained := [5] } [6, 7] 0 =
      some ([], { state := ({ retained := [5] } : Decomp).state, eof := false,
                  unused_data := ({ retained := [5] } : Decomp).unused_data,
                  needs_input :=
                    (({ retained := [5] } : Decomp).retained ++ [6, 7]).isEmpty,
                  retained := ({ retained := [5] } : Decomp).retained ++ [6, 7] }) :=
  ⟨⟨rfl, rfl, by decide⟩,
    C9_decompress_zero_max_length modelInflate { retained := [5] } [6, 7] 2 rfl rfl
      modelInflate_zero (by decide)⟩

theorem leBytesToNat_bytesLE (n : Nat) : ∀ x : Nat,
    leBytesToNat (bytesLE n x) = x % 2 ^ (8 * n) := by
  induction n with
  | zero =>
    intro x
    simp [bytesLE, leBytesToNat]
    omega
  | succ n ih =>
    intro x
    rw [bytesLE, leBytesToNat, ih]
    have h1 : 2 ^ (8 * (n + 1)) = 256 * 2 ^ (8 * n) := by
      rw [Nat.mul_succ, Nat.pow_add]
      ring
    rw [h1, Nat.mod_mul]

/-- **C6** Trailing-data capture on end-of-stream: when a `decompress`
call reaches block-finish (last component of the `decompress_buf` loop
result `true`) with input remaining, `eof` becomes true, `needs_input`
becomes false, and `unused_data` is set to the whole bytes parked in
the codec's bit residue (byte-aligned by discarding the sub-byte
remainder: `leBytesToNat` of the copied bytes equals
`read_in >> (read_in_length % 8)` reduced to `read_in_length / 8` whole
bytes) followed by the literal leftover input bytes. -/
theorem C6_trailing_data_capture (step : InflateStep) (fuel : Nat) (d : Decomp)
    (data : List Nat) (maxLength : Int)
    (st' : InflateState) (input' outp : List Nat)
    (hloop : decompressBufLoop step fuel d.state (d.retained ++ data) none
        (min DEF_BUF_SIZE (if maxLength < 0 then SSIZE_MAX else maxLength.toNat))
        (if maxLength < 0 then SSIZE_MAX else maxLength.toNat) =
      (st', input', outp, true))
    (hrem : input' ≠ []) :
    decompressCore step fuel d data maxLength =
      (outp, { state := st', eof := true,
               unused_data := bitbuffer_copy st'.read_in st'.read_in_length
                   (bitbuffer_size st'.read_in_length) ++ input',
               needs_input := false, retained := input' }) ∧
    leBytesToNat (bitbuffer_copy st'.read_in st'.read_in_length
        (bitbuffer_size st'.read_in_length)) =
      (st'.read_in >>> (st'.read_in_length % 8)) %
        2 ^ (8 * bitbuffer_size st'.read_in_length) := by
  constructor
  · simp only [decompressCore]
    rw [hloop]
    simp [hrem]
  · rw [bitbuffer_copy, leBytesToNat_bytesLE]

/-- A degenerate codec instantiation for the C6 witness: it finishes
immediately, leaving 12 bits (one whole byte and a 4-bit remainder) in
the bit buffer `0xABCD`. -/
def witCodecC6 : InflateStep := fun st _ _ =>
  ({ st with block_finished := true, read_in := 43981, read_in_length := 12 },
    1, [7])

/-- The codec state produced by `witCodecC6`. -/
def stC6 : InflateState :=
  { read_in := 43981, read_in_length := 12, block_finished := true }

/-- Witness for C6: one byte of input is left over, and the byte-aligned
bit residue `0xABC >> 4 = 0xBC = 188` is prepended to it. -/
theorem C6_trailing_data_capture_witness :
    (decompressBufLoop witCodecC6 1 ({} : Decomp).state
        (({} : Decomp).retained ++ [9, 9]) none
        (min DEF_BUF_SIZE (if (-1 : Int) < 0 then SSIZE_MAX else (-1 : Int).toNat))
        (if (-1 : Int) < 0 then SSIZE_MAX else (-1 : Int).toNat) =
      (stC6, [9], [7], true) ∧ ([9] : List Nat) ≠ []) ∧
    (decompressCore witCodecC6 1 {} [9, 9] (-1) =
      ([7], { state := stC6, eof := true,
              unused_data := bitbuffer_copy stC6.read_in stC6.read_in_length
                  (bitbuffer_size stC6.read_in_length) ++ [9],
              needs_input := false, retained := [9] }) ∧
     leBytesToNat (bitbuffer_copy stC6.read_in stC6.read_in_length
         (bitbuffer_size stC6.read_in_length)) =
       (stC6.read_in >>> (stC6.read_in_length % 8)) %
         2 ^ (8 * bitbuffer_size stC6.read_in_length)) :=
  ⟨⟨by decide, by decide⟩,
    C6_trailing_data_capture witCodecC6 1 {} [9, 9] (-1) stC6 [9] [7]
      (by decide) (by decide)⟩

/-! ### `_GzipReader` (isal_zlibmodule.c) -/

/-- `stream_phase` of a `_GzipReader`. -/
inductive Phase
  | header | deflateBlock | trailer | nullBytes
  deriving Repr, DecidableEq

/-- The file-like collaborator: a byte stream and a read position. -/
structure Source where
  data : List Nat
  pos : Nat
  deriving Repr, DecidableEq

/-- `fp.readinto`: hand over up to `n` bytes from the current
position. -/
def Source.readinto (s : Source) (n : Nat) : List Nat × Source :=
  let chunk := (s.data.drop s.pos).take n
  (chunk, { s with pos := s.pos + chunk.length })

/-- The observable state of a file-backed `_GzipReader`: the source,
its internal input buffer (`buffered` being the bytes between
`input_buffer` and `buffer_end`, `cursor` the index of `current_pos`),
the state machine phase, the decompressed position `_pos`, the lazily
discovered `_size`, `_last_mtime` and the codec state. -/
structure GzipReader where
  source : Source
  allBytesRead : Bool
  bufferSize : Nat
  buffered : List Nat
  cursor : Nat
  phase : Phase
  pos : Nat
  size : Int
  lastMtime : Nat
  state : InflateState
  deriving Repr, DecidableEq

/-- `_GzipReader.__new__` over a file-like source. -/
def GzipReader_new (data : List Nat) (bufferSize : Nat) : GzipReader :=
  { source := ⟨data, 0⟩, allBytesRead := false, bufferSize := bufferSize,
    buffered := [], cursor := 0, phase := .header, pos := 0, size := -1,
    lastMtime := 0, state := {} }

/-- `GzipReader_read_from_file`: shift out the consumed prefix (first
doubling the buffer when it is completely full), fill the free space
from the source, and mark the source exhausted on a zero-byte read. -/
def GzipReader_read_from_file (r : GzipReader) : GzipReader :=
  let remaining := r.buffered.length - r.cursor
  let bufferSize := if remaining = r.bufferSize then r.bufferSize * 2 else r.bufferSize
  let kept := r.buffered.drop r.cursor
  let t := r.source.readinto (bufferSize - remaining)
  { r with source := t.2, bufferSize := bufferSize,
           buffered := kept ++ t.1, cursor := 0,
           allBytesRead := r.allBytesRead || t.1.isEmpty }

/-- The error surface of the reader: `BadGzipFile` variants, `EOFError`
for premature truncation, `ValueError` for a bad `whence`. -/
inductive GzErr
  | badMagic | badMethod | badHeaderCrc | badCrc | badLength | eofError | badWhence
  deriving Repr, DecidableEq

/-- Skip the optional FEXTRA / FNAME / FCOMMENT header fields starting
at `start`; `none` when the buffered bytes do not yet contain them
whole (per the C code's conservative `>=` bounds checks). -/
def headerFieldsEnd (flags : Nat) (buffered : List Nat) (start : Nat) : Option Nat :=
  let afterExtra :=
    if flags &&& 4 ≠ 0 then
      if start + 2 ≥ buffered.length then none
      else
        let flength := load_u16_le buffered start
        if start + 2 + flength ≥ buffered.length then none
        else some (start + 2 + flength)
    else some start
  match afterExtra with
  | none => none
  | some hc1 =>
    let afterName :=
      if flags &&& 8 ≠ 0 then
        match (buffered.drop hc1).findIdx? (fun b => b == 0) with
        | none => none
        | some i => some (hc1 + i + 1)
      else some hc1
    match afterName with
    | none => none
    | some hc2 =>
      if flags &&& 16 ≠ 0 then
        match (buffered.drop hc2).findIdx? (fun b => b == 0) with
        | none => none
        | some i => some (hc2 + i + 1)
      else some hc2

/-- Outcome of one HEADER-phase parse attempt. -/
inductive HeaderParse
  | tooShort
  | wrongMagic
  | wrongMethod
  | fieldsIncomplete (mtime : Nat)
  | crcMismatch (mtime : Nat)
  | accepted (mtime : Nat) (newCur : Nat)
  deriving Repr, DecidableEq

/-- The HEADER-phase parsing of `GzipReader_read_into_buffer` (lines
1678-1750 of isal_zlibmodule.c): fixed 10-byte prefix with
magic/method/flags/mtime, then the optional fields, then the optional
16-bit header CRC checked against the CRC-32 of the header bytes so
far.  The modification time is reported even when the optional fields
are not yet complete, because the C code stores it into
`self->_last_mtime` before checking them. -/
def parseHeader (buffered : List Nat) (cur : Nat) : HeaderParse :=
  if buffered.length - cur < 10 then .tooShort
  else if ¬(buffered.getD cur 0 = 0x1f ∧ buffered.getD (cur + 1) 0 = 0x8b) then
    .wrongMagic
  else if buffered.getD (cur + 2) 0 ≠ 8 then .wrongMethod
  else
    let flags := buffered.getD (cur + 3) 0
    let mtime := load_u32_le buffered (cur + 4)
    match headerFieldsEnd flags buffered (cur + 10) with
    | none => .fieldsIncomplete mtime
    | some hc =>
      if flags &&& 2 ≠ 0 then
        if hc + 2 ≥ buffered.length then .fieldsIncomplete mtime
        else
          let headerCrc := load_u16_le buffered hc
          let crc := crc32_gzip_refl 0 ((buffered.drop cur).take (hc - cur)) &&& 0xFFFF
          if headerCrc ≠ crc then .crcMismatch mtime
          else .accepted mtime (hc + 2)
      else .accepted mtime hc

/-- How one call of `GzipReader_read_into_buffer` ends: clean EOF at a
member boundary, output buffer filled, a break of the inner loop to
request more input, or a fatal error.  The reader carried in each
constructor holds exactly the fields the C code has written through to
`self` at that point (`current_pos` is only stored on the paths that
store it). -/
inductive InnerRes
  | cleanEof (r : GzipReader) (written : List Nat)
  | outFull (r : GzipReader) (written : List Nat)
  | needMore (r : GzipReader) (cur : Nat) (written : List Nat) (outRem : Nat)
  | fail (e : GzErr) (r : GzipReader)
  deriving Repr, DecidableEq

/-- Result of one phase dispatch: finished with `InnerRes`, or
`continue` back to the top of the inner `while(1)`. -/
inductive PhaseOut
  | done (res : InnerRes)
  | cont (r : GzipReader) (cur : Nat) (written : List Nat) (outRem : Nat)
  deriving Repr, DecidableEq

/-- Number of leading zero bytes. -/
def leadingZeroCount : List Nat → Nat
  | [] => 0
  | b :: r => if b = 0 then leadingZeroCount r + 1 else 0

/-- `NULL_BYTES` phase: skip zero padding between members; break for
more input if the buffer ran out, else re-enter `HEADER`. -/
def nullStep (r : GzipReader) (cur : Nat) (written : List Nat)
    (outRem : Nat) : PhaseOut :=
  let cur' := cur + leadingZeroCount (r.buffered.drop cur)
  if cur' = r.buffered.length then .done (.needMore r cur' written outRem)
  else .cont { r with phase := .header } cur' written outRem

/-- `TRAILER` phase: with eight buffered bytes, read the little-endian
CRC and length words and check them against the codec's counters;
then fall through into `NULL_BYTES`. -/
def trailerStep (r : GzipReader) (cur : Nat) (written : List Nat)
    (outRem : Nat) : PhaseOut :=
  if r.buffered.length - cur < 8 then .done (.needMore r cur written outRem)
  else if load_u32_le r.buffered cur ≠ r.state.crc then .done (.fail .badCrc r)
  else if load_u32_le r.buffered (cur + 4) ≠ r.state.total_out then
    .done (.fail .badLength r)
  else nullStep { r with phase := .nullBytes } (cur + 8) written outRem

/-- `DEFLATE_BLOCK` phase: one `isal_inflate` call over the buffered
input window and the caller's remaining output space; on block-finish
the cursor is rewound by the whole bytes parked in the bit buffer and
the machine falls through into `TRAILER`. -/
def deflateStep (step : InflateStep) (r : GzipReader) (cur : Nat)
    (written : List Nat) (outRem : Nat) : PhaseOut :=
  let availIn := min (r.buffered.length - cur) U32MAX
  let availOut := min outRem U32MAX
  let t := step r.state ((r.buffered.drop cur).take availIn) availOut
  let r' := { r with state := t.1, pos := r.pos + t.2.2.length }
  let written' := written ++ t.2.2
  let outRem' := outRem - t.2.2.length
  let cur' := cur + t.2.1
  if ¬ t.1.block_finished then
    if 0 < outRem' then
      if cur' = r.buffered.length then .done (.needMore r' cur' written' outRem')
      else .cont r' cur' written' outRem'
    else .done (.outFull { r' with cursor := cur' } written')
  else
    trailerStep { r' with phase := .trailer }
      (cur' - bitbuffer_size t.1.read_in_length) written' outRem'

/-- `HEADER` phase: clean EOF when the buffer is empty and the source
exhausted; otherwise one parse attempt, resetting the codec and falling
through into `DEFLATE_BLOCK` on acceptance. -/
def headerStep (step : InflateStep) (r : GzipReader) (cur : Nat)
    (written : List Nat) (outRem : Nat) : PhaseOut :=
  if r.buffered.length - cur = 0 ∧ r.allBytesRead then
    .done (.cleanEof { r with size := (r.pos : Int), cursor := cur } written)
  else
    match parseHeader r.buffered cur with
    | .tooShort => .done (.needMore r cur written outRem)
    | .wrongMagic => .done (.fail .badMagic r)
    | .wrongMethod => .done (.fail .badMethod r)
    | .fieldsIncomplete mtime =>
      .done (.needMore { r with lastMtime := mtime } cur written outRem)
    | .crcMismatch mtime =>
      .done (.fail .badHeaderCrc { r with lastMtime := mtime })
    | .accepted mtime newCur =>
      deflateStep step
        { r with lastMtime := mtime, state := inflate_reset,
                 phase := .deflateBlock }
        newCur written outRem

/-- One dispatch of the switch statement (with fallthrough built into
the phase functions). -/
def phaseStep (step : InflateStep) (r : GzipReader) (cur : Nat)
    (written : List Nat) (outRem : Nat) : PhaseOut :=
  match r.phase with
  | .header => headerStep step r cur written outRem
  | .deflateBlock => deflateStep step r cur written outRem
  | .trailer => trailerStep r cur written outRem
  | .nullBytes => nullStep r cur written outRem

/-- The inner `while(1)` loop of `GzipReader_read_into_buffer`. -/
def innerLoop (step : InflateStep) :
    Nat → GzipReader → Nat → List Nat → Nat → InnerRes
  | 0, r, cur, written, outRem => .needMore r cur written outRem
  | fuel + 1, r, cur, written, outRem =>
    match phaseStep step r cur written outRem with
    | .done res => res
    | .cont r' cur' written' outRem' => innerLoop step fuel r' cur' written' outRem'

/-- `GzipReader_read_into_buffer`: alternate the inner loop with
source refills; once the source is exhausted, a break in `NULL_BYTES`
is a clean end (recording `_size`), a break in any other phase is the
fatal premature-truncation `EOFError`. -/
def readIntoBuffer (step : InflateStep) :
    Nat → Nat → GzipReader → List Nat → Nat →
    Except (GzErr × GzipReader) (List Nat × GzipReader)
  | 0, _, r, _, _ => .error (.eofError, r)
  | outerFuel + 1, innerFuel, r, written, outRem =>
    match innerLoop step innerFuel r r.cursor written outRem with
    | .cleanEof r' w => .ok (w, r')
    | .outFull r' w => .ok (w, r')
    | .fail e r' => .error (e, r')
    | .needMore r' cur w rem =>
      if r'.allBytesRead then
        if r'.phase = .nullBytes then
          .ok (w, { r' with size := (r'.pos : Int), cursor := cur })
        else .error (.eofError, r')
      else
        readIntoBuffer step outerFuel innerFuel
          (GzipReader_read_from_file { r' with cursor := cur }) w rem

/-- Inner fuel certainly sufficient for the concrete runs below. -/
def innerFuelFor (r : GzipReader) (outSize : Nat) : Nat :=
  2 * r.buffered.length + 2 * r.source.data.length + 2 * outSize + 8

/-- `GzipReader_read_into_buffer` with adequate fuel. -/
def readIntoBufferAuto (step : InflateStep) (r : GzipReader) (outSize : Nat) :
    Except (GzErr × GzipReader) (List Nat × GzipReader) :=
  readIntoBuffer step (r.source.data.length + 2) (innerFuelFor r outSize) r [] outSize

/-- The chunked loop of `GzipReader_readall` after the first chunk. -/
def readallLoop (step : InflateStep) (chunkSize : Nat) :
    Nat → GzipReader → List Nat →
    Except (GzErr × GzipReader) (List Nat × GzipReader)
  | 0, r, acc => .ok (acc, r)
  | f + 1, r, acc =>
    match readIntoBufferAuto step r chunkSize with
    | .error e => .error e
    | .ok (w, r') =>
      if w = [] then .ok (acc, r') else readallLoop step chunkSize f r' (acc ++ w)

/-- `GzipReader_readall`. -/
def GzipReader_readall (step : InflateStep) (fuel : Nat) (r : GzipReader) :
    Except (GzErr × GzipReader) (List Nat × GzipReader) :=
  let chunkSize := r.bufferSize * 4
  match readIntoBufferAuto step r chunkSize with
  | .error e => .error e
  | .ok (w, r') =>
    if w.length < chunkSize then .ok (w, r')
    else readallLoop step chunkSize fuel r' w

/-- `GzipReader_read`: negative size reads everything, size zero
returns an empty byte string before touching any state, a positive
size does one `read_into_buffer` call over a
`min(buffer_size * 10, size)` answer buffer. -/
def GzipReader_read (step : InflateStep) (r : GzipReader) (size : Int) :
    Except (GzErr × GzipReader) (List Nat × GzipReader) :=
  if size < 0 then GzipReader_readall step (r.source.data.length + 2) r
  else if size = 0 then .ok ([], r)
  else
    let answerSize := min (r.bufferSize * 10) size.toNat
    readIntoBufferAuto step r answerSize

/-- The drain loop of `GzipReader_seek` for `SEEK_END` when `_size` is
still unknown: read into an 8 KiB scratch buffer until nothing more
comes out. -/
def drainLoop (step : InflateStep) :
    Nat → GzipReader → Except (GzErr × GzipReader) GzipReader
  | 0, r => .ok r
  | f + 1, r =>
    match readIntoBufferAuto step r 8192 with
    | .error e => .error e
    | .ok (w, r') => if w = [] then .ok r' else drainLoop step f r'

/-- The forward read-and-discard loop of `GzipReader_seek`. -/
def discardLoop (step : InflateStep) :
    Nat → GzipReader → Nat → Except (GzErr × GzipReader) GzipReader
  | 0, r, _ => .ok r
  | f + 1, r, offset =>
    if offset = 0 then .ok r
    else
      match readIntoBufferAuto step r (min 8192 offset) with
      | .error e => .error e
      | .ok (w, r') =>
        if w = [] then .ok r' else discardLoop step f r' (offset - w.length)

/-- The backward-seek reset of `GzipReader_seek` (lines 1916-1924 of
isal_zlibmodule.c): the source is rewound, the state machine returns to
`HEADER`, `_pos` and `all_bytes_read` are cleared and the codec is
reset — but `current_pos`/`buffer_end` (here `buffered`/`cursor`) are
left untouched, so previously buffered compressed bytes survive the
rewind. -/
def seekReset (r : GzipReader) : GzipReader :=
  { r with source := { r.source with pos := 0 }, phase := .header,
           pos := 0, allBytesRead := false, state := inflate_reset }

/-- `GzipReader_seek`. -/
def GzipReader_seek (step : InflateStep) (fuel : Nat) (r : GzipReader)
    (offset : Int) (whence : Nat) :
    Except (GzErr × GzipReader) (Int × GzipReader) :=
  let absRes : Except (GzErr × GzipReader) (Int × GzipReader) :=
    if whence = 0 then .ok (offset, r)
    else if whence = 1 then .ok ((r.pos : Int) + offset, r)
    else if whence = 2 then
      if r.size < 0 then
        match drainLoop step fuel r with
        | .error e => .error e
        | .ok r' => .ok (r'.size + offset, r')
      else .ok (r.size + offset, r)
    else .error (.badWhence, r)
  match absRes with
  | .error e => .error e
  | .ok (off, r1) =>
    let t : Nat × GzipReader :=
      if off < (r1.pos : Int) then (off.toNat, seekReset r1)
      else ((off - (r1.pos : Int)).toNat, r1)
    match discardLoop step fuel t.2 t.1 with
    | .error e => .error e
    | .ok r2 => .ok ((r2.pos : Int), r2)

/-- **C10** For every `GzipReader` in every state, `read(0)` returns an
empty byte string and is a pure no-op: it does not touch the source,
does not run the state machine, and leaves the position, phase,
buffered input and codec state unchanged (the returned reader is the
argument itself). -/
theorem C10_read_zero_noop (step : InflateStep) (r : GzipReader) :
    GzipReader_read step r 0 = .ok ([], r) := by
  rw [GzipReader_read, if_neg (by decide), if_pos rfl]

/-- **C2** Gzip member-finish postcondition of
`GzipReader_read_into_buffer`: when the codec reports block-finish in
the `DEFLATE_BLOCK` phase, the input cursor is rewound by exactly the
whole bytes parked in the codec's bit residue
(`bitbuffer_size = read_in_length / 8`) and the machine moves to the
trailer; the trailer then requires 8 buffered bytes, reads a
little-endian 32-bit CRC that must equal the codec's accumulated CRC
(else `BadGzipFile .badCrc`) and a little-endian 32-bit length that
must equal the codec's 32-bit total-output counter (else
`BadGzipFile .badLength`), and on success transitions to
`NULL_BYTES`. -/
theorem C2_member_finish_trailer (step : InflateStep) (r : GzipReader)
    (cur : Nat) (written : List Nat) (outRem : Nat)
    (st' : InflateState) (consumed : Nat) (out : List Nat)
    (hphase : r.phase = .deflateBlock)
    (hstep : step r.state ((r.buffered.drop cur).take
        (min (r.buffered.length - cur) U32MAX)) (min outRem U32MAX) =
      (st', consumed, out))
    (hfin : st'.block_finished = true) :
    phaseStep step r cur written outRem =
      trailerStep
        { r with state := st', pos := r.pos + out.length, phase := .trailer }
        (cur + consumed - bitbuffer_size st'.read_in_length)
        (written ++ out) (outRem - out.length) ∧
    (∀ (r2 : GzipReader) (cur2 : Nat) (w2 : List Nat) (o2 : Nat),
      (r2.buffered.length - cur2 < 8 →
        trailerStep r2 cur2 w2 o2 = .done (.needMore r2 cur2 w2 o2)) ∧
      (¬ r2.buffered.length - cur2 < 8 →
        load_u32_le r2.buffered cur2 ≠ r2.state.crc →
        trailerStep r2 cur2 w2 o2 = .done (.fail .badCrc r2)) ∧
      (¬ r2.buffered.length - cur2 < 8 →
        load_u32_le r2.buffered cur2 = r2.state.crc →
        load_u32_le r2.buffered (cur2 + 4) ≠ r2.state.total_out →
        trailerStep r2 cur2 w2 o2 = .done (.fail .badLength r2)) ∧
      (¬ r2.buffered.length - cur2 < 8 →
        load_u32_le r2.buffered cur2 = r2.state.crc →
        load_u32_le r2.buffered (cur2 + 4) = r2.state.total_out →
        trailerStep r2 cur2 w2 o2 =
          nullStep { r2 with phase := .nullBytes } (cur2 + 8) w2 o2)) := by
  constructor
  · simp only [phaseStep, hphase]
    simp only [deflateStep, hstep]
    simp [hfin]
  · intro r2 cur2 w2 o2
    refine ⟨?_, ?_, ?_, ?_⟩
    · intro h8
      simp only [trailerStep, if_pos h8]
    · intro h8 hcrc
      simp only [trailerStep, if_neg h8, if_pos hcrc]
    · intro h8 hcrc hlen
      simp only [trailerStep, if_neg h8, if_neg (not_not_intro hcrc), if_pos hlen]
    · intro h8 hcrc hlen
      simp only [trailerStep, if_neg h8, if_neg (not_not_intro hcrc),
        if_neg (not_not_intro hlen)]

/-- Codec state for the C2 witness: finished, with 16 residual bits
(two whole bytes) in the bit buffer. -/
def stC2 : InflateState :=
  { block_finished := true, read_in_length := 16, crc := 7, total_out := 2 }

/-- Codec instantiation for the C2 witness: reports block-finish after
consuming 5 bytes and producing two. -/
def witCodecC2 : InflateStep := fun _ _ _ => (stC2, 5, [1, 2])

/-- Reader for the C2 witness: mid-member in `DEFLATE_BLOCK`. -/
def rC2 : GzipReader :=
  { source := ⟨[], 0⟩, allBytesRead := true, bufferSize := 4,
    buffered := [0, 0, 0, 0, 0, 0, 0, 0, 0, 0], cursor := 0,
    phase := .deflateBlock, pos := 0, size := -1, lastMtime := 0, state := {} }

/-- Witness for C2: the cursor is rewound by the two bit-buffer bytes
(`0 + 5 - 2`) and the machine hands over to the trailer. -/
theorem C2_member_finish_trailer_witness :
    (rC2.phase = .deflateBlock ∧
      witCodecC2 rC2.state ((rC2.buffered.drop 0).take
          (min (rC2.buffered.length - 0) U32MAX)) (min 100 U32MAX) =
        (stC2, 5, [1, 2]) ∧
      stC2.block_finished = true) ∧
    phaseStep witCodecC2 rC2 0 [] 100 =
      trailerStep
        { rC2 with state := stC2, pos := rC2.pos + ([1, 2] : List Nat).length,
                   phase := .trailer }
        (0 + 5 - bitbuffer_size stC2.read_in_length)
        ([] ++ [1, 2]) (100 - ([1, 2] : List Nat).length) :=
  ⟨⟨rfl, by decide, by decide⟩,
    (C2_member_finish_trailer witCodecC2 rC2 0 [] 100 stC2 5 [1, 2] rfl
      (by decide) (by decide)).1⟩

/-- **C3** Gzip header validation in `GzipReader_read_into_buffer`:
with at least 10 bytes buffered, a first pair of bytes other than
`0x1F 0x8B` fails the call with `BadGzipFile .badMagic`, a method byte
other than 8 fails it with `BadGzipFile .badMethod`, and when the FHCRC
flag (bit 2) is set, a 16-bit header CRC field different from the
CRC-32 of all preceding header bytes truncated to 16 bits fails it with
`BadGzipFile .badHeaderCrc`; the magic failure is propagated as the
error result of `GzipReader_read_into_buffer` itself. -/
theorem C3_header_validation (step : InflateStep) (r : GzipReader)
    (cur : Nat) (written : List Nat) (outRem : Nat)
    (h10 : 10 ≤ r.buffered.length - cur) :
    (¬(r.buffered.getD cur 0 = 0x1f ∧ r.buffered.getD (cur + 1) 0 = 0x8b) →
      parseHeader r.buffered cur = .wrongMagic ∧
      headerStep step r cur written outRem = .done (.fail .badMagic r)) ∧
    (r.buffered.getD cur 0 = 0x1f → r.buffered.getD (cur + 1) 0 = 0x8b →
      r.buffered.getD (cur + 2) 0 ≠ 8 →
      parseHeader r.buffered cur = .wrongMethod ∧
      headerStep step r cur written outRem = .done (.fail .badMethod r)) ∧
    (∀ hc : Nat,
      r.buffered.getD cur 0 = 0x1f → r.buffered.getD (cur + 1) 0 = 0x8b →
      r.buffered.getD (cur + 2) 0 = 8 →
      r.buffered.getD (cur + 3) 0 &&& 2 ≠ 0 →
      headerFieldsEnd (r.buffered.getD (cur + 3) 0) r.buffered (cur + 10) =
        some hc →
      ¬ hc + 2 ≥ r.buffered.length →
      load_u16_le r.buffered hc ≠
        crc32_gzip_refl 0 ((r.buffered.drop cur).take (hc - cur)) &&& 0xFFFF →
      parseHeader r.buffered cur =
        .crcMismatch (load_u32_le r.buffered (cur + 4)) ∧
      headerStep step r cur written outRem =
        .done (.fail .badHeaderCrc
          { r with lastMtime := load_u32_le r.buffered (cur + 4) })) ∧
    (r.phase = .header → cur = r.cursor →
      ¬(r.buffered.getD cur 0 = 0x1f ∧ r.buffered.getD (cur + 1) 0 = 0x8b) →
      ∀ F G : Nat, readIntoBuffer step (F + 1) (G + 1) r written outRem =
        .error (.badMagic, r)) := by
  have hguard : ¬(r.buffered.length - cur = 0 ∧ r.allBytesRead = true) := by
    intro h
    omega
  refine ⟨?_, ?_, ?_, ?_⟩
  · intro hmagic
    have hp : parseHeader r.buffered cur = .wrongMagic := by
      simp only [parseHeader, if_neg (by omega : ¬ r.buffered.length - cur < 10),
        if_pos hmagic]
    exact ⟨hp, by simp only [headerStep, if_neg hguard, hp]⟩
  · intro h1 h2 h3
    have hp : parseHeader r.buffered cur = .wrongMethod := by
      simp only [parseHeader, if_neg (by omega : ¬ r.buffered.length - cur < 10),
        if_neg (not_not_intro (And.intro h1 h2)), if_pos h3]
    exact ⟨hp, by simp only [headerStep, if_neg hguard, hp]⟩
  · intro hc h1 h2 h3 hflag hfields hroom hcrcne
    have hp : parseHeader r.buffered cur =
        .crcMismatch (load_u32_le r.buffered (cur + 4)) := by
      simp only [parseHeader, if_neg (by omega : ¬ r.buffered.length - cur < 10),
        if_neg (not_not_intro (And.intro h1 h2)), if_neg (not_not_intro h3), hfields,
        if_pos hflag, if_neg hroom, if_pos hcrcne]
    exact ⟨hp, by simp only [headerStep, if_neg hguard, hp]⟩
  · intro hphase hcur hmagic F G
    have hp : parseHeader r.buffered cur = .wrongMagic := by
      simp only [parseHeader, if_neg (by omega : ¬ r.buffered.length - cur < 10),
        if_pos hmagic]
    rw [readIntoBuffer, innerLoop]
    simp only [phaseStep, hphase, ← hcur]
    simp only [headerStep, if_neg hguard, hp]

/-- Reader for the C3 witness: ten buffered bytes that do not start
with the gzip magic. -/
def rC3 : GzipReader :=
  { source := ⟨[], 0⟩, allBytesRead := true, bufferSize := 4,
    buffered := [1, 2, 3, 4, 5, 6, 7, 8, 9, 10], cursor := 0,
    phase := .header, pos := 0, size := -1, lastMtime := 0, state := {} }

/-- Witness for C3: the bad-magic branch at a concrete reader. -/
theorem C3_header_validation_witness :
    (10 ≤ rC3.buffered.length - 0 ∧
      ¬(rC3.buffered.getD 0 0 = 0x1f ∧ rC3.buffered.getD (0 + 1) 0 = 0x8b)) ∧
    (parseHeader rC3.buffered 0 = .wrongMagic ∧
      headerStep modelInflate rC3 0 [] 5 = .done (.fail .badMagic rC3)) :=
  ⟨⟨by decide, by decide⟩,
    (C3_header_validation modelInflate rC3 0 [] 5 (by decide)).1 (by decide)⟩

/-- **C4** Truncation versus clean termination in
`GzipReader_read_into_buffer`: once the source is exhausted
(`all_bytes_read`), a break of the inner loop in any phase other than
`NULL_BYTES` fails the call with the premature-truncation `EOFError`
(the `HEADER` phase with zero buffered bytes never breaks: it returns
cleanly from inside the loop, recording `_size`); a break in
`NULL_BYTES` and the in-loop clean-EOF return both deliver the bytes
written so far (possibly none) and record the total decompressed size
in `_size`. -/
theorem C4_truncation_vs_clean_eof (step : InflateStep) (F innerFuel : Nat)
    (r : GzipReader) (w0 : List Nat) (outRem : Nat) :
    (∀ (r' : GzipReader) (cur : Nat) (w : List Nat) (rem : Nat),
      innerLoop step innerFuel r r.cursor w0 outRem = .needMore r' cur w rem →
      r'.allBytesRead = true →
      (r'.phase ≠ .nullBytes →
        readIntoBuffer step (F + 1) innerFuel r w0 outRem =
          .error (.eofError, r')) ∧
      (r'.phase = .nullBytes →
        readIntoBuffer step (F + 1) innerFuel r w0 outRem =
          .ok (w, { r' with size := (r'.pos : Int), cursor := cur }))) ∧
    (∀ (r' : GzipReader) (w : List Nat),
      innerLoop step innerFuel r r.cursor w0 outRem = .cleanEof r' w →
      readIntoBuffer step (F + 1) innerFuel r w0 outRem = .ok (w, r')) ∧
    (r.phase = .header → r.buffered.length - r.cursor = 0 →
      r.allBytesRead = true → 1 ≤ innerFuel →
      readIntoBuffer step (F + 1) innerFuel r w0 outRem =
        .ok (w0, { r with size := (r.pos : Int), cursor := r.cursor })) := by
  refine ⟨?_, ?_, ?_⟩
  · intro r' cur w rem hinner hall
    constructor
    · intro hph
      rw [readIntoBuffer, hinner]
      simp only [hall, if_neg hph, if_true]
    · intro hph
      rw [readIntoBuffer, hinner]
      simp only [hall, hph, if_true]
  · intro r' w hinner
    rw [readIntoBuffer, hinner]
  · intro hphase h0 hall hfuel
    obtain ⟨g, rfl⟩ : ∃ g, innerFuel = g + 1 := ⟨innerFuel - 1, by omega⟩
    rw [readIntoBuffer, innerLoop]
    simp only [phaseStep, hphase]
    simp only [headerStep, if_pos (And.intro h0 hall)]
    rw [hphase]

/-- Reader for the C4 witness: exhausted source while awaiting a
trailer, with only three buffered bytes. -/
def rC4 : GzipReader :=
  { source := ⟨[], 0⟩, allBytesRead := true, bufferSize := 4,
    buffered := [1, 2, 3], cursor := 0, phase := .trailer, pos := 6,
    size := -1, lastMtime := 0, state := {} }

/-- Witness for C4: a truncated trailer turns into `EOFError`. -/
theorem C4_truncation_vs_clean_eof_witness :
    (innerLoop modelInflate 1 rC4 rC4.cursor [] 5 = .needMore rC4 0 [] 5 ∧
      rC4.allBytesRead = true ∧ rC4.phase ≠ .nullBytes) ∧
    readIntoBuffer modelInflate (0 + 1) 1 rC4 [] 5 = .error (.eofError, rC4) :=
  ⟨⟨by decide, by decide, by decide⟩,
    (((C4_truncation_vs_clean_eof modelInflate 0 1 rC4 [] 5).1 rC4 0 [] 5
      (by decide) (by decide)).1 (by decide))⟩

theorem parseHeader_fieldsIncomplete_mtime (buffered : List Nat) (cur m : Nat)
    (h : parseHeader buffered cur = .fieldsIncomplete m) :
    m = load_u32_le buffered (cur + 4) := by
  simp only [parseHeader] at h
  split at h
  · simp at h
  · split at h
    · simp at h
    · split at h
      · simp at h
      · split at h
        · injection h with h'
          exact h'.symm
        · split at h
          · split at h
            · injection h with h'
              exact h'.symm
            · split at h
              · simp at h
              · simp at h
          · simp at h

theorem parseHeader_crcMismatch_mtime (buffered : List Nat) (cur m : Nat)
    (h : parseHeader buffered cur = .crcMismatch m) :
    m = load_u32_le buffered (cur + 4) := by
  simp only [parseHeader] at h
  split at h
  · simp at h
  · split at h
    · simp at h
    · split at h
      · simp at h
      · split at h
        · simp at h
        · split at h
          · split at h
            · simp at h
            · split at h
              · injection h with h'
                exact h'.symm
              · simp at h
          · simp at h

/-- **C8 (amended)** Header-parsing atomicity of
`GzipReader_read_into_buffer`, as the code actually behaves: for a call
that starts in `HEADER` on an exhausted source with bytes still
buffered and whose header parse attempt does not succeed, the call
fails and no observable reader state changes — the input cursor, the
buffered bytes, the source, the phase, the position and the codec's
CRC/length counters are identical afterwards — **except** that the
last-parsed modification time may already have been updated to the new
header's mtime field, because the C code stores `_last_mtime` before
validating the optional header fields. -/
theorem C8_header_attempt_atomicity (step : InflateStep) (F innerFuel : Nat)
    (r : GzipReader) (outRem : Nat) (e : GzErr) (r' : GzipReader)
    (hphase : r.phase = .header)
    (hall : r.allBytesRead = true)
    (hrem : 0 < r.buffered.length - r.cursor)
    (hfuel : 1 ≤ innerFuel)
    (hnotok : ∀ m c, parseHeader r.buffered r.cursor ≠ .accepted m c)
    (hres : readIntoBuffer step (F + 1) innerFuel r [] outRem = .error (e, r')) :
    r'.cursor = r.cursor ∧ r'.state = r.state ∧ r'.pos = r.pos ∧
      r'.buffered = r.buffered ∧ r'.source = r.source ∧ r'.phase = r.phase ∧
      (r'.lastMtime = r.lastMtime ∨
        r'.lastMtime = load_u32_le r.buffered (r.cursor + 4)) := by
  obtain ⟨g, rfl⟩ : ∃ g, innerFuel = g + 1 := ⟨innerFuel - 1, by omega⟩
  rw [readIntoBuffer, innerLoop] at hres
  simp only [phaseStep, hphase] at hres
  rw [headerStep, if_neg (by omega)] at hres
  cases hP : parseHeader r.buffered r.cursor with
  | tooShort =>
    rw [hP] at hres
    simp only [hall, if_true] at hres
    rw [if_neg (by rw [hphase]; intro hh; cases hh)] at hres
    injection hres with hres'
    injection hres' with h1 h2
    subst h2
    exact ⟨rfl, rfl, rfl, rfl, rfl, rfl, Or.inl rfl⟩
  | wrongMagic =>
    rw [hP] at hres
    injection hres with hres'
    injection hres' with h1 h2
    subst h2
    exact ⟨rfl, rfl, rfl, rfl, rfl, rfl, Or.inl rfl⟩
  | wrongMethod =>
    rw [hP] at hres
    injection hres with hres'
    injection hres' with h1 h2
    subst h2
    exact ⟨rfl, rfl, rfl, rfl, rfl, rfl, Or.inl rfl⟩
  | fieldsIncomplete m =>
    rw [hP] at hres
    simp only [hall, if_true] at hres
    rw [if_neg (by rw [hphase]; intro hh; cases hh)] at hres
    injection hres with hres'
    injection hres' with h1 h2
    subst h2
    exact ⟨rfl, rfl, rfl, rfl, rfl, rfl,
      Or.inr (parseHeader_fieldsIncomplete_mtime _ _ _ hP)⟩
  | crcMismatch m =>
    rw [hP] at hres
    injection hres with hres'
    injection hres' with h1 h2
    subst h2
    exact ⟨rfl, rfl, rfl, rfl, rfl, rfl,
      Or.inr (parseHeader_crcMismatch_mtime _ _ _ hP)⟩
  | accepted m c =>
    exact absurd hP (hnotok m c)

/-- Reader for the C8 counterexample: a valid fixed header prefix with
`mtime = 1` and the FNAME flag set, but the name never terminated and
the source exhausted. -/
def rC8 : GzipReader :=
  { source := ⟨[], 0⟩, allBytesRead := true, bufferSize := 4,
    buffered := [0x1f, 0x8b, 8, 8, 1, 0, 0, 0, 0, 0, 65, 66], cursor := 0,
    phase := .header, pos := 0, size := -1, lastMtime := 0, state := {} }

/-- Counterexample to **C8** as stated: a call in which header parsing
does not succeed (truncated FNAME field, so the call fails with
`EOFError`) nevertheless changes observable reader state: the
last-parsed modification time goes from 0 to the new header's mtime
field 1. -/
theorem C8_header_atomicity_counterexample :
    readIntoBuffer modelInflate 1 1 rC8 [] 5 =
      .error (.eofError, { rC8 with lastMtime := 1 }) ∧
    ({ rC8 with lastMtime := 1 } : GzipReader).lastMtime ≠ rC8.lastMtime :=
  ⟨by decide, by decide⟩

/-- Witness for the amended C8 at the same concrete reader. -/
theorem C8_header_attempt_atomicity_witness :
    (rC8.phase = .header ∧ rC8.allBytesRead = true ∧
      0 < rC8.buffered.length - rC8.cursor ∧ (1 : Nat) ≤ 1 ∧
      readIntoBuffer modelInflate (0 + 1) 1 rC8 [] 5 =
        .error (.eofError, { rC8 with lastMtime := 1 })) ∧
    (({ rC8 with lastMtime := 1 } : GzipReader).cursor = rC8.cursor ∧
      ({ rC8 with lastMtime := 1 } : GzipReader).state = rC8.state ∧
      ({ rC8 with lastMtime := 1 } : GzipReader).pos = rC8.pos ∧
      ({ rC8 with lastMtime := 1 } : GzipReader).buffered = rC8.buffered ∧
      ({ rC8 with lastMtime := 1 } : GzipReader).source = rC8.source ∧
      ({ rC8 with lastMtime := 1 } : GzipReader).phase = rC8.phase ∧
      (({ rC8 with lastMtime := 1 } : GzipReader).lastMtime = rC8.lastMtime ∨
        ({ rC8 with lastMtime := 1 } : GzipReader).lastMtime =
          load_u32_le rC8.buffered (rC8.cursor + 4))) :=
  ⟨⟨rfl, rfl, by decide, by decide, by decide⟩,
    C8_header_attempt_atomicity modelInflate 0 1 rC8 5 .eofError
      { rC8 with lastMtime := 1 } rfl rfl (by decide) (by decide)
      (fun m c h => by
        rw [show parseHeader rC8.buffered rC8.cursor =
          HeaderParse.fieldsIncomplete 1 from by decide] at h
        exact HeaderParse.noConfusion h)
      (by decide)⟩

/-! ### C5: seek semantics -/

/-- Little-endian 32-bit encoding. -/
def u32leBytes (x : Nat) : List Nat :=
  [x % 256, x / 256 % 256, x / 65536 % 256, x / 16777216 % 256]

/-- A complete one-member gzip stream in the model-codec world: the
minimal 10-byte header, payload literals `65 66` plus the end marker,
then the CRC-32 and length trailer. -/
def bugStream : List Nat :=
  [0x1f, 0x8b, 8, 0, 0, 0, 0, 0, 0, 255] ++ [65, 66, 255] ++
    u32leBytes (crc32_gzip_refl 0 [65, 66]) ++ u32leBytes 2

/-- A fresh reader over `bugStream`. -/
def bugReader0 : GzipReader := GzipReader_new bugStream 32768

/-- The reader after `read(1)` (one decompressed byte consumed). -/
def bugReader1 : GzipReader :=
  match GzipReader_read modelInflate bugReader0 1 with
  | .ok (_, r) => r
  | .error (_, r) => r

/-- The reader after the subsequent `seek(0, SEEK_SET)`. -/
def bugReader2 : GzipReader :=
  match GzipReader_seek modelInflate 4 bugReader1 0 0 with
  | .ok (_, r) => r
  | .error (_, r) => r

/-- **C5** (bug demonstration): `read(1)` returns byte 65 and
`seek(0, SEEK_SET)` then returns position 0, but because the
backward-seek reset of `GzipReader_seek` fails to reset
`current_pos`/`buffer_end`, the following `read(2)` re-parses stale
buffered compressed bytes from the pre-seek position and fails with
`BadGzipFile` (bad magic), instead of returning bytes `[65, 66]` as a
freshly opened reader does for positions `[0, 2)`. -/
theorem C5_seek_stale_buffer_bug :
    (GzipReader_read modelInflate bugReader0 1).toOption.map Prod.fst =
      some [65] ∧
    (GzipReader_seek modelInflate 4 bugReader1 0 0).toOption.map Prod.fst =
      some 0 ∧
    (GzipReader_read modelInflate (GzipReader_new bugStream 32768) 2).toOption.map
      Prod.fst = some [65, 66] ∧
    GzipReader_read modelInflate bugReader2 2 = .error (.badMagic, bugReader2) :=
  ⟨by decide, by decide, by decide, by decide⟩

end PyIsal
